import Mathlib

/-! Formal model of `tcp_websocket_adapter/tcp_websocket_adapter.py`.

Bytes are modelled as natural numbers and byte strings as `List Nat`;
the CR LF delimiter `b"\r\n"` is the list `[13, 10]`. -/

/-- The two-byte frame delimiter `b"\r\n"` used on the TCP side. -/
def crlf : List Nat := [13, 10]

/-- Scan of `buffer.partition(b"\r\n")` restricted to the found case: look for
the first occurrence of CR LF left to right, returning the bytes before it and
the bytes after it; `none` when the delimiter does not occur (that is, when the
`while b"\r\n" in buffer` guard of line 72 fails). -/
def splitFirstCRLF : List Nat → Option (List Nat × List Nat)
  | [] => none
  | b :: rest =>
      if b = 13 ∧ rest.head? = some 10 then some ([], rest.tail)
      else (splitFirstCRLF rest).map fun p => (b :: p.1, p.2)

/-- Line 100, `message + b"\r\n"`: wrap an outgoing payload with the delimiter. -/
def encode (payload : List Nat) : List Nat := payload ++ crlf

/-- Fuel-indexed form of the inner framing loop of `_forward_tcp_to_ws`
(lines 72-73): while the delimiter occurs in the buffer, split off the first
delimited frame; the bytes after the last delimiter remain. The fuel only
serves structural recursion; `buf.length` is always enough. -/
def decodeFuel : Nat → List Nat → List (List Nat) × List Nat
  | 0, buf => ([], buf)
  | fuel + 1, buf =>
      match splitFirstCRLF buf with
      | none => ([], buf)
      | some (msg, rest) =>
          let p := decodeFuel fuel rest
          (msg :: p.1, p.2)

/-- One decode step of the accumulated buffer (lines 72-73): the list of
complete frames split off, and the retained partial buffer. -/
def decode (buf : List Nat) : List (List Nat) × List Nat := decodeFuel buf.length buf

theorem splitFirstCRLF_some :
    ∀ {buf msg rest : List Nat}, splitFirstCRLF buf = some (msg, rest) →
      buf = msg ++ 13 :: 10 :: rest ∧ ¬ [13, 10] <:+: msg := by
  intro buf
  induction buf with
  | nil => intro msg rest h; simp [splitFirstCRLF] at h
  | cons b bs ih =>
      intro msg rest h
      simp only [splitFirstCRLF] at h
      by_cases hc : b = 13 ∧ bs.head? = some 10
      · rw [if_pos hc] at h
        obtain ⟨hb13, hh⟩ := hc
        cases bs with
        | nil => simp at hh
        | cons x xs =>
            rw [List.head?_cons] at hh
            have hx : x = 10 := Option.some.inj hh
            simp only [Option.some.injEq, Prod.mk.injEq, List.tail_cons] at h
            obtain ⟨hm, hr⟩ := h
            subst hm; subst hr; subst hb13; subst hx
            exact ⟨rfl, by rintro ⟨s, t, ht⟩; simp at ht⟩
      · rw [if_neg hc] at h
        cases hb : splitFirstCRLF bs with
        | none => rw [hb] at h; simp at h
        | some p =>
            obtain ⟨p1, p2⟩ := p
            rw [hb] at h
            simp only [Option.map_some', Option.some.injEq, Prod.mk.injEq] at h
            obtain ⟨hm, hr⟩ := h
            obtain ⟨hbs, hclean⟩ := ih hb
            subst hr
            constructor
            · rw [← hm, hbs]; rfl
            · rw [← hm]
              rintro ⟨s, t, ht⟩
              cases s with
              | nil =>
                  simp only [List.nil_append, List.cons_append, List.cons.injEq] at ht
                  obtain ⟨h13, hp1⟩ := ht
                  exact hc ⟨h13.symm, by rw [hbs, ← hp1]; rfl⟩
              | cons a s2 =>
                  simp only [List.cons_append, List.cons.injEq] at ht
                  exact hclean ⟨s2, t, ht.2⟩

theorem splitFirstCRLF_length {buf msg rest : List Nat}
    (h : splitFirstCRLF buf = some (msg, rest)) : rest.length < buf.length := by
  have h1 := (splitFirstCRLF_some h).1
  rw [h1]
  simp [List.length_append]
  omega

theorem no_delim_of_split_none {buf : List Nat}
    (h : splitFirstCRLF buf = none) : ¬ [13, 10] <:+: buf := by
  induction buf with
  | nil => rintro ⟨s, t, ht⟩; simp at ht
  | cons b bs ih =>
      simp only [splitFirstCRLF] at h
      by_cases hc : b = 13 ∧ bs.head? = some 10
      · rw [if_pos hc] at h; simp at h
      · rw [if_neg hc] at h
        cases hb : splitFirstCRLF bs with
        | some p => rw [hb] at h; simp at h
        | none =>
            rintro ⟨s, t, ht⟩
            cases s with
            | nil =>
                simp only [List.nil_append, List.cons_append, List.cons.injEq] at ht
                obtain ⟨h13, hbs⟩ := ht
                exact hc ⟨h13.symm, by rw [← hbs]; rfl⟩
            | cons a s2 =>
                simp only [List.cons_append, List.cons.injEq] at ht
                exact ih hb ⟨s2, t, ht.2⟩

theorem split_none_of_no_delim {buf : List Nat}
    (h : ¬ [13, 10] <:+: buf) : splitFirstCRLF buf = none := by
  cases hs : splitFirstCRLF buf with
  | none => rfl
  | some p =>
      obtain ⟨m, r⟩ := p
      have h1 := (splitFirstCRLF_some hs).1
      exact absurd ⟨m, r, by rw [h1]; simp⟩ h

theorem splitFirstCRLF_append {P t : List Nat} (h : ¬ [13, 10] <:+: P) :
    splitFirstCRLF (P ++ 13 :: 10 :: t) = some (P, t) := by
  induction P with
  | nil => simp [splitFirstCRLF]
  | cons b bs ih =>
      have hb : ¬ [13, 10] <:+: bs := by
        rintro ⟨s, u, hu⟩
        exact h ⟨b :: s, u, by rw [← hu]; rfl⟩
      simp only [List.cons_append, splitFirstCRLF, List.append_eq]
      by_cases hc : b = 13 ∧ (bs ++ 13 :: 10 :: t).head? = some 10
      · exfalso
        obtain ⟨h13, hh⟩ := hc
        cases bs with
        | nil => simp at hh
        | cons x xs =>
            rw [List.cons_append, List.head?_cons] at hh
            have hx : x = 10 := Option.some.inj hh
            exact h ⟨[], xs, by rw [h13, hx]; rfl⟩
      · rw [if_neg hc, ih hb]
        rfl

theorem decodeFuel_none {buf : List Nat} (h : splitFirstCRLF buf = none) :
    ∀ fuel, decodeFuel fuel buf = ([], buf) := by
  intro fuel
  cases fuel with
  | zero => rfl
  | succ n => simp [decodeFuel, h]

theorem decodeFuel_congr :
    ∀ f1 f2 (buf : List Nat), buf.length ≤ f1 → buf.length ≤ f2 →
      decodeFuel f1 buf = decodeFuel f2 buf := by
  intro f1
  induction f1 with
  | zero =>
      intro f2 buf h1 _
      have : buf = [] := List.eq_nil_of_length_eq_zero (Nat.le_zero.mp h1)
      subst this
      rw [@decodeFuel_none [] rfl, @decodeFuel_none [] rfl]
  | succ n ih =>
      intro f2 buf h1 h2
      cases hs : splitFirstCRLF buf with
      | none => rw [decodeFuel_none hs, decodeFuel_none hs]
      | some p =>
          obtain ⟨msg, rest⟩ := p
          cases f2 with
          | zero =>
              have : buf = [] := List.eq_nil_of_length_eq_zero (Nat.le_zero.mp h2)
              subst this
              simp [splitFirstCRLF] at hs
          | succ m =>
              have hlt := splitFirstCRLF_length hs
              simp only [decodeFuel, hs]
              rw [ih m rest (by omega) (by omega)]

theorem decode_none {buf : List Nat} (h : splitFirstCRLF buf = none) :
    decode buf = ([], buf) := decodeFuel_none h buf.length

theorem decode_some {buf msg rest : List Nat}
    (h : splitFirstCRLF buf = some (msg, rest)) :
    decode buf = (msg :: (decode rest).1, (decode rest).2) := by
  have hlt := splitFirstCRLF_length h
  unfold decode
  cases hn : buf.length with
  | zero =>
      exfalso
      have : buf = [] := List.eq_nil_of_length_eq_zero hn
      subst this
      simp [splitFirstCRLF] at h
  | succ n =>
      simp only [decodeFuel, h]
      rw [decodeFuel_congr n rest.length rest (by omega) le_rfl]

/-- Claim C1: round-trip framing.  For every byte payload `P` that does not
contain the CR LF sequence, running the accumulated-buffer split on the
encoding `P ++ b"\r\n"` yields exactly the one-element frame list `[P]` with an
empty remaining partial buffer. -/
theorem decode_encode_roundtrip (P : List Nat) (h : ¬ [13, 10] <:+: P) :
    decode (encode P) = ([P], []) := by
  have hs : splitFirstCRLF (P ++ 13 :: 10 :: []) = some (P, []) :=
    splitFirstCRLF_append h
  have he : encode P = P ++ 13 :: 10 :: [] := rfl
  rw [he, decode_some hs]
  rfl

/-- Witness for C1 at the concrete payload `b"Hi"`. -/
theorem decode_encode_roundtrip_witness :
    decode (encode [72, 105]) = ([[72, 105]], []) :=
  decode_encode_roundtrip [72, 105] (by decide)

/-- Claim C5: partial-frame retention.  A buffer without the delimiter decodes
to zero frames with the whole input retained; appending bytes that supply the
missing delimiter and decoding again yields exactly one frame, the
concatenation of the retained remainder and the new bytes before the
delimiter. -/
theorem frame_retention (buf pre : List Nat)
    (h : ¬ [13, 10] <:+: buf ++ pre) :
    decode buf = ([], buf) ∧
    decode (buf ++ (pre ++ [13, 10])) = ([buf ++ pre], []) := by
  have hbuf : ¬ [13, 10] <:+: buf := by
    rintro ⟨s, t, ht⟩
    exact h ⟨s, t ++ pre, by rw [← ht]; simp⟩
  constructor
  · exact decode_none (split_none_of_no_delim hbuf)
  · have heq : buf ++ (pre ++ [13, 10]) = (buf ++ pre) ++ 13 :: 10 :: [] := by simp
    rw [heq, decode_some (splitFirstCRLF_append h)]
    rfl

/-- Witness for C5 at `buf = [72]`, `pre = [33]`. -/
theorem frame_retention_witness :
    decode [72] = ([], [72]) ∧
    decode ([72] ++ ([33] ++ [13, 10])) = ([[72, 33]], []) :=
  frame_retention [72] [33] (by decide)

theorem decode_greedy_aux :
    ∀ n (buf : List Nat), buf.length ≤ n →
      (∀ f, f ∈ (decode buf).1 → ¬ [13, 10] <:+: f) ∧
      ((decode buf).1.map (fun f => f ++ [13, 10])).join ++ (decode buf).2 = buf ∧
      ¬ [13, 10] <:+: (decode buf).2 := by
  intro n
  induction n with
  | zero =>
      intro buf h
      have : buf = [] := List.eq_nil_of_length_eq_zero (Nat.le_zero.mp h)
      subst this
      have hd : decode ([] : List Nat) = ([], []) := rfl
      rw [hd]
      refine ⟨?_, rfl, ?_⟩
      · intro f hf; simp at hf
      · rintro ⟨s, t, ht⟩; simp at ht
  | succ n ih =>
      intro buf h
      cases hs : splitFirstCRLF buf with
      | none =>
          rw [decode_none hs]
          exact ⟨fun f hf => by simp at hf, by simp, no_delim_of_split_none hs⟩
      | some p =>
          obtain ⟨msg, rest⟩ := p
          obtain ⟨hbuf, hmsg⟩ := splitFirstCRLF_some hs
          have hlt := splitFirstCRLF_length hs
          obtain ⟨ih1, ih2, ih3⟩ := ih rest (by omega)
          rw [decode_some hs]
          refine ⟨?_, ?_, ih3⟩
          · intro f hf
            simp only [List.mem_cons] at hf
            cases hf with
            | inl hfm => rw [hfm]; exact hmsg
            | inr hfr => exact ih1 f hfr
          · simp only [List.map_cons, List.join_cons, List.append_assoc]
            rw [ih2, hbuf]
            rfl

/-- Claim C6: greedy left-to-right decode.  For every accumulated buffer, one
decode step produces zero or more frames, none of which contains the CR LF
delimiter; interleaving the frames with the delimiter and appending the
retained partial buffer reconstructs the input (so the split consumes every
delimiter occurrence, left to right); and the retained partial buffer —
exactly the bytes after the last delimiter — contains no delimiter. -/
theorem decode_greedy (buf : List Nat) :
    (∀ f, f ∈ (decode buf).1 → ¬ [13, 10] <:+: f) ∧
    ((decode buf).1.map (fun f => f ++ [13, 10])).join ++ (decode buf).2 = buf ∧
    ¬ [13, 10] <:+: (decode buf).2 :=
  decode_greedy_aux buf.length buf le_rfl

/-- Witness for C6 at the concrete buffer `b"H\r\nI"`. -/
theorem decode_greedy_witness :
    ¬ [13, 10] <:+: [72] ∧
    ((decode [72, 13, 10, 73]).1.map (fun f => f ++ [13, 10])).join ++
      (decode [72, 13, 10, 73]).2 = [72, 13, 10, 73] :=
  ⟨(decode_greedy [72, 13, 10, 73]).1 [72] (by decide),
   (decode_greedy [72, 13, 10, 73]).2.1⟩

/-- A message delivered by the WebSocket library to `_forward_ws_to_tcp`:
either a text message (a Python `str`) or a binary message (raw bytes). -/
inductive WsMessage where
  | text (s : String)
  | binary (b : List Nat)

/-- Python `str.encode()` with its default encoding: the UTF-8 bytes of a
string, as natural numbers. -/
def utf8Bytes (s : String) : List Nat :=
  (s.data.flatMap String.utf8EncodeChar).map (fun b => b.toNat)

/-- Lines 97-98: a text-typed message is converted to bytes with UTF-8
(`message.encode()`); a binary message passes through unchanged. -/
def normalizeMessage : WsMessage → List Nat
  | WsMessage.text s => utf8Bytes s
  | WsMessage.binary b => b

/-- Line 100: the bytes written to the TCP stream for one WebSocket message —
the normalized payload with the delimiter appended (`message + b"\r\n"`). -/
def wsToTcpBytes (m : WsMessage) : List Nat := encode (normalizeMessage m)

/-- The `async for message in websocket` loop of `_forward_ws_to_tcp`
(lines 96-101): one TCP write per received message, in order. -/
def forwardWsToTcp : List WsMessage → List (List Nat)
  | [] => []
  | m :: rest => wsToTcpBytes m :: forwardWsToTcp rest

/-- Claim C7: WS-to-TCP payload normalization and delimiter append.  A
text-typed message is converted to bytes with UTF-8, a binary message passes
through unchanged, and in both cases exactly the two delimiter bytes CR LF are
appended, so the text message "Hello" reaches the TCP peer as
`b"Hello\r\n"`. -/
theorem ws_to_tcp_delimiter :
    (∀ s, wsToTcpBytes (WsMessage.text s) = utf8Bytes s ++ [13, 10]) ∧
    (∀ b, wsToTcpBytes (WsMessage.binary b) = b ++ [13, 10]) ∧
    wsToTcpBytes (WsMessage.text "Hello") = [72, 101, 108, 108, 111, 13, 10] ∧
    decode (wsToTcpBytes (WsMessage.text "Hello")) = ([[72, 101, 108, 108, 111]], []) := by
  refine ⟨fun s => rfl, fun b => rfl, ?_, ?_⟩ <;> decide

/-- Claim C10: a zero-length WebSocket message (empty text or empty bytes)
still produces exactly the two delimiter bytes `b"\r\n"` on the TCP stream;
the delimiter is appended unconditionally and no message is skipped — the
forwarder writes exactly one frame per received message. -/
theorem empty_message_still_delimited :
    forwardWsToTcp [WsMessage.text "", WsMessage.binary []] = [[13, 10], [13, 10]] ∧
    wsToTcpBytes (WsMessage.text "") = [13, 10] ∧
    wsToTcpBytes (WsMessage.binary []) = [13, 10] ∧
    (∀ msgs, (forwardWsToTcp msgs).length = msgs.length) := by
  refine ⟨by decide, by decide, by decide, ?_⟩
  intro msgs
  induction msgs with
  | nil => rfl
  | cons m rest ih => simp [forwardWsToTcp, ih]

/-- An observable transport action of a forwarder. -/
inductive Act where
  | tcpRead (data : List Nat)
  | wsSendOk (msg : List Nat)
  | wsSendFail (msg : List Nat)
  | tcpWrite (bytes : List Nat)
  | tcpDrain
  | closeTcpWriter
  | waitTcpWriterClosed
deriving DecidableEq

/-- Whether an action closes (or waits on closing) a transport. -/
def Act.isTransportClose : Act → Bool
  | Act.closeTcpWriter => true
  | Act.waitTcpWriterClosed => true
  | _ => false

/-- Outcome of one `await reader.read(buffer_size)` call (line 66): either it
returns bytes (the empty list models the zero-length read of a closed peer),
or the task is cancelled while awaiting it. -/
inductive ReadOutcome where
  | data (bytes : List Nat)
  | cancelled

/-- Fuel-indexed inner framing-and-send loop of `_forward_tcp_to_ws`
(lines 72-79): while the delimiter occurs, partition off the first frame and
send it.  The WebSocket channel accepts `closeAt` sends in total and is closed
afterwards; `sent` counts sends so far.  A send on the closed channel raises
`ConnectionClosed`, which line 77 catches and line 79 answers with `break`,
leaving the inner loop with the already-partitioned buffer.  Returns the
emitted actions, the updated send count and the remaining buffer. -/
def innerLoopFuel : Nat → Nat → Nat → List Nat → List Act × Nat × List Nat
  | 0, _, sent, buffer => ([], sent, buffer)
  | fuel + 1, closeAt, sent, buffer =>
      match splitFirstCRLF buffer with
      | none => ([], sent, buffer)
      | some (msg, rest) =>
          if sent < closeAt then
            let r := innerLoopFuel fuel closeAt (sent + 1) rest
            (Act.wsSendOk msg :: r.1, r.2)
          else
            ([Act.wsSendFail msg], sent, rest)

/-- The inner loop with enough fuel for its buffer. -/
def innerLoop (closeAt sent : Nat) (buffer : List Nat) : List Act × Nat × List Nat :=
  innerLoopFuel buffer.length closeAt sent buffer

/-- The outer `while True` read loop of `_forward_tcp_to_ws` (lines 65-84),
driven by a script of read outcomes.  An empty read breaks the loop (line 69);
a cancelled read is caught by line 81; otherwise the bytes are appended to the
accumulation buffer and the inner framing loop runs.  The `finally` block
(lines 83-84) only logs: no close action is ever emitted. -/
def runTcpToWs (closeAt : Nat) : Nat → List Nat → List ReadOutcome → List Act
  | _, _, [] => []
  | _, _, ReadOutcome.cancelled :: _ => []
  | sent, buffer, ReadOutcome.data d :: script =>
      if d = [] then [Act.tcpRead []]
      else
        let r := innerLoop closeAt sent (buffer ++ d)
        Act.tcpRead d :: (r.1 ++ runTcpToWs closeAt r.2.1 r.2.2 script)

/-- One full run of `_forward_tcp_to_ws`: start with an empty buffer and no
sends performed. -/
def forwardTcpToWs (closeAt : Nat) (script : List ReadOutcome) : List Act :=
  runTcpToWs closeAt 0 [] script

/-- How the `async for` loop of `_forward_ws_to_tcp` ends: the message
sequence finishes normally (client closed), `ConnectionClosed` is raised, or
the task is cancelled — the latter two caught at line 102. -/
inductive ExitReason where
  | normal
  | connectionClosed
  | cancelled

/-- Actions contributed by the exception handler of `_forward_ws_to_tcp`
(lines 102-103): every exit reason is caught and merely logged. -/
def exitActs : ExitReason → List Act
  | ExitReason.normal => []
  | ExitReason.connectionClosed => []
  | ExitReason.cancelled => []

/-- One full run of `_forward_ws_to_tcp` (lines 94-107): a write and a drain
per received message, then — whatever ended the loop — the `finally` block
closes the TCP writer and waits for the close to complete. -/
def runForwardWsToTcp (msgs : List WsMessage) (e : ExitReason) : List Act :=
  ((msgs.map fun m => [Act.tcpWrite (wsToTcpBytes m), Act.tcpDrain]).flatten)
    ++ exitActs e ++ [Act.closeTcpWriter, Act.waitTcpWriterClosed]

/-- Claim C2 (code bug): the spec and the comment on line 79 say the forwarder
stops after a send on a closed WebSocket fails, but `break` only leaves the
inner framing loop, so with the channel closed from the start and two reads
`b"A\r\n"`, `b"B\r\n"` the forwarder reads again and attempts another send
after the first failed send. -/
theorem tcp_to_ws_continues_after_send_failure :
    forwardTcpToWs 0 [ReadOutcome.data [65, 13, 10], ReadOutcome.data [66, 13, 10]] =
      [Act.tcpRead [65, 13, 10], Act.wsSendFail [65],
       Act.tcpRead [66, 13, 10], Act.wsSendFail [66]] := by decide

theorem innerLoopFuel_no_close (fuel : Nat) :
    ∀ closeAt sent buffer,
      (((innerLoopFuel fuel closeAt sent buffer).1.all
        fun a => ! a.isTransportClose) = true) := by
  induction fuel with
  | zero => intro _ _ _; rfl
  | succ n ih =>
      intro closeAt sent buffer
      cases hsp : splitFirstCRLF buffer with
      | none => simp [innerLoopFuel, hsp]
      | some p =>
          obtain ⟨msg, rest⟩ := p
          simp only [innerLoopFuel, hsp]
          by_cases hs : sent < closeAt
          · rw [if_pos hs]
            simp only [List.all_cons, Act.isTransportClose, Bool.not_false, Bool.true_and]
            exact ih closeAt (sent + 1) rest
          · rw [if_neg hs]; rfl

theorem runTcpToWs_no_close (closeAt : Nat) (script : List ReadOutcome) :
    ∀ sent buffer,
      ((runTcpToWs closeAt sent buffer script).all fun a => ! a.isTransportClose) = true := by
  induction script with
  | nil => intro _ _; rfl
  | cons o rest ih =>
      intro sent buffer
      cases o with
      | cancelled => rfl
      | data d =>
          simp only [runTcpToWs]
          by_cases hd : d = []
          · rw [if_pos hd]; rfl
          · rw [if_neg hd]
            simp only [List.all_cons, List.all_append, Act.isTransportClose,
              Bool.not_false, Bool.true_and, Bool.and_eq_true]
            exact ⟨innerLoopFuel_no_close _ _ _ _, ih _ _⟩

/-- Claim C8: transport-close ownership.  On every exit path (normal end of
the message sequence, closed channel, cancellation) the WS-to-TCP forwarder
ends its action trace by closing the TCP writer and waiting for that close,
while the TCP-to-WS forwarder emits no transport-close action on any of its
runs. -/
theorem transport_close_ownership :
    (∀ msgs e, ∃ pre, runForwardWsToTcp msgs e =
        pre ++ [Act.closeTcpWriter, Act.waitTcpWriterClosed]) ∧
    (∀ closeAt script,
      ((forwardTcpToWs closeAt script).all fun a => ! a.isTransportClose) = true) := by
  constructor
  · intro msgs e
    refine ⟨((msgs.map fun m => [Act.tcpWrite (wsToTcpBytes m), Act.tcpDrain]).flatten)
      ++ exitActs e, ?_⟩
    simp [runForwardWsToTcp, List.append_assoc]
  · intro closeAt script
    exact runTcpToWs_no_close closeAt script 0 []

/-- What awaiting the background runner task eventually yields: a normal
return, a `CancelledError` (the task was cancelled), or some other escaping
exception. -/
inductive AwaitResult where
  | normal
  | cancelled
  | failed
deriving DecidableEq

/-- An `asyncio.Task` handle as the lifecycle code observes it: `done` is what
`task.done()` returns now, `result` is what `await task` yields after
`task.cancel()`. -/
structure TaskH where
  done : Bool
  result : AwaitResult
deriving DecidableEq

/-- The mutable lifecycle state of the adapter: `_ws_server` (line 39) and
`_ws_server_runner_task` (line 40), each possibly `None`. -/
structure BridgeState where
  ws_server : Option Nat
  runner_task : Option TaskH
deriving DecidableEq

/-- Models `_ws_server_runner` (lines 132-142): its whole body is wrapped in
`try/except Exception`, so every exception (a bind failure included) is caught
and logged and the task returns normally; only an external cancellation
escapes, making a later await of the task raise `CancelledError`. -/
def wsServerRunnerResult (cancelledDuringRun : Bool) : AwaitResult :=
  if cancelledDuringRun then AwaitResult.cancelled else AwaitResult.normal

/-- `start` (lines 144-152): spawn the runner task only when no task exists or
the existing one is done (`if not self._ws_server_runner_task or
self._ws_server_runner_task.done()`).  `runnerOutcome` is the eventual await
result of the freshly created task; `create_task` returns a pending task, so
its `done` flag is `false`.  The returned flag records whether a new task (and
with it a new listening endpoint) was created. -/
def start (s : BridgeState) (runnerOutcome : AwaitResult) : BridgeState × Bool :=
  match s.runner_task with
  | none => (⟨s.ws_server, some ⟨false, runnerOutcome⟩⟩, true)
  | some t =>
      if t.done then (⟨s.ws_server, some ⟨false, runnerOutcome⟩⟩, true)
      else (s, false)

/-- A side effect performed by `stop`. -/
inductive StopAct where
  | closeServer
  | waitServerClosed
  | cancelTask
  | awaitTask
deriving DecidableEq

/-- `stop` (lines 154-174): if a server handle exists, close it and wait for
the close; if a task handle exists, cancel it and await it, catching exactly
`CancelledError` — a task whose await raises anything else propagates that
exception out of `stop` (modelled as `Except.error`); finally both handles
are set to `None` unconditionally (lines 172-173). -/
def stop (s : BridgeState) : Except AwaitResult (BridgeState × List StopAct) :=
  let serverActs : List StopAct :=
    match s.ws_server with
    | some _ => [StopAct.closeServer, StopAct.waitServerClosed]
    | none => []
  match s.runner_task with
  | none => Except.ok (⟨none, none⟩, serverActs)
  | some t =>
      match t.result with
      | AwaitResult.failed => Except.error AwaitResult.failed
      | _ => Except.ok (⟨none, none⟩, serverActs ++ [StopAct.cancelTask, StopAct.awaitTask])

/-- Claim C3: idempotent start.  Whenever the bridge is Running (a runner task
exists and is not finished) `start` is a no-op that creates no second task or
endpoint, and therefore two consecutive `start` calls from any state create at
most one task: the second call never spawns and leaves the state unchanged. -/
theorem start_idempotent (s : BridgeState) (r0 r1 : AwaitResult) :
    (∀ t, s.runner_task = some t → t.done = false → start s r0 = (s, false)) ∧
    start (start s r0).1 r1 = ((start s r0).1, false) := by
  constructor
  · intro t ht hd
    simp [start, ht, hd]
  · obtain ⟨ws, task⟩ := s
    cases task with
    | none => simp [start]
    | some t =>
        by_cases hd : t.done
        · simp [start, hd]
        · simp [start, hd]

/-- Witness for C3: a running bridge (pending task) is left untouched, and a
second start after a start from Idle is a no-op. -/
theorem start_idempotent_witness :
    start ⟨none, some ⟨false, AwaitResult.normal⟩⟩ AwaitResult.normal =
      (⟨none, some ⟨false, AwaitResult.normal⟩⟩, false) ∧
    start (start ⟨none, none⟩ AwaitResult.normal).1 AwaitResult.normal =
      ((start ⟨none, none⟩ AwaitResult.normal).1, false) :=
  ⟨(start_idempotent ⟨none, some ⟨false, AwaitResult.normal⟩⟩
      AwaitResult.normal AwaitResult.normal).1 ⟨false, AwaitResult.normal⟩ rfl rfl,
   (start_idempotent ⟨none, none⟩ AwaitResult.normal AwaitResult.normal).2⟩

/-- Claim C4: idempotent stop.  For every bridge state whose runner task — if
one exists — is a task of this program (awaiting it yields a normal return or
`CancelledError`, never another exception, which is what `_ws_server_runner`
guarantees), `stop` completes without raising and clears both handles; calling
it again on the resulting Idle state succeeds again, performs no side effect,
and leaves the bridge Idle. -/
theorem stop_idempotent (s : BridgeState)
    (h : ∀ t, s.runner_task = some t → t.result ≠ AwaitResult.failed) :
    (∃ acts, stop s = Except.ok (⟨none, none⟩, acts)) ∧
    stop ⟨none, none⟩ = Except.ok (⟨none, none⟩, []) ∧
    (∀ c, wsServerRunnerResult c ≠ AwaitResult.failed) := by
  refine ⟨?_, rfl, by intro c; cases c <;> decide⟩
  obtain ⟨ws, task⟩ := s
  cases task with
  | none => exact ⟨_, rfl⟩
  | some t =>
      have hr := h t rfl
      cases ws with
      | none =>
          cases hres : t.result with
          | failed => exact absurd hres hr
          | normal =>
              exact ⟨[StopAct.cancelTask, StopAct.awaitTask], by simp [stop, hres]⟩
          | cancelled =>
              exact ⟨[StopAct.cancelTask, StopAct.awaitTask], by simp [stop, hres]⟩
      | some sid =>
          cases hres : t.result with
          | failed => exact absurd hres hr
          | normal =>
              exact ⟨[StopAct.closeServer, StopAct.waitServerClosed,
                StopAct.cancelTask, StopAct.awaitTask], by simp [stop, hres]⟩
          | cancelled =>
              exact ⟨[StopAct.closeServer, StopAct.waitServerClosed,
                StopAct.cancelTask, StopAct.awaitTask], by simp [stop, hres]⟩

/-- Witness for C4 at a Running bridge whose task was cancelled. -/
theorem stop_idempotent_witness :
    (∃ acts, stop ⟨some 7, some ⟨false, AwaitResult.cancelled⟩⟩ =
        Except.ok (⟨none, none⟩, acts)) ∧
    stop ⟨none, none⟩ = Except.ok (⟨none, none⟩, []) ∧
    wsServerRunnerResult true ≠ AwaitResult.failed := by
  have h := stop_idempotent ⟨some 7, some ⟨false, AwaitResult.cancelled⟩⟩
    (by intro t ht; injection ht with h1; subst h1; decide)
  exact ⟨h.1, h.2.1, h.2.2 true⟩

/-- An error escaping an awaited operation inside `_handle_ws_connection`:
an `asyncio.CancelledError` or an ordinary `Exception` (spec section 7's error
taxonomy for a session). -/
inductive SessionErr where
  | cancelled
  | exception (msg : String)
deriving DecidableEq

/-- An observable step of the per-connection coordinator. -/
inductive HandleEv where
  | dialAttempt
  | startTcpToWs
  | startWsToTcp
  | awaitForwarders
  | logCancelled
  | logError
  | logDisconnected
deriving DecidableEq

/-- The `try` body of `_handle_ws_connection` (lines 116-123): dial the TCP
upstream; on success create both forwarder tasks and gather them.  Returns
the steps performed and the error escaping the body, if any. -/
def handleBody (dial gather : Except SessionErr Unit) :
    List HandleEv × Option SessionErr :=
  match dial with
  | Except.error e => ([HandleEv.dialAttempt], some e)
  | Except.ok _ =>
      match gather with
      | Except.error e =>
          ([HandleEv.dialAttempt, HandleEv.startTcpToWs, HandleEv.startWsToTcp,
            HandleEv.awaitForwarders], some e)
      | Except.ok _ =>
          ([HandleEv.dialAttempt, HandleEv.startTcpToWs, HandleEv.startWsToTcp,
            HandleEv.awaitForwarders], none)

/-- `_handle_ws_connection` (lines 109-130): run the body, catch
`CancelledError` (line 125) and every `Exception` (line 127) with a log, then
run the `finally` log (line 130).  The second component is the error that
still propagates out of the handler. -/
def handleWsConnection (dial gather : Except SessionErr Unit) :
    List HandleEv × Option SessionErr :=
  let b := handleBody dial gather
  let handled : List HandleEv × Option SessionErr :=
    match b.2 with
    | some SessionErr.cancelled => (b.1 ++ [HandleEv.logCancelled], none)
    | some (SessionErr.exception _) => (b.1 ++ [HandleEv.logError], none)
    | none => (b.1, none)
  (handled.1 ++ [HandleEv.logDisconnected], handled.2)

/-- Claim C9: session-scoped error containment.  For every session, no error
propagates out of the per-connection handler; if the TCP dial fails the
handler logs and returns without starting either forwarder; and an unexpected
error escaping the gathered forwarders is caught and logged at the handler
boundary. -/
theorem session_error_containment (dial gather : Except SessionErr Unit) :
    (handleWsConnection dial gather).2 = none ∧
    (∀ e, dial = Except.error e →
        HandleEv.startTcpToWs ∉ (handleWsConnection dial gather).1 ∧
        HandleEv.startWsToTcp ∉ (handleWsConnection dial gather).1) ∧
    (∀ m, dial = Except.error (SessionErr.exception m) →
        HandleEv.logError ∈ (handleWsConnection dial gather).1) ∧
    (∀ m u, dial = Except.ok u →
        gather = Except.error (SessionErr.exception m) →
        HandleEv.logError ∈ (handleWsConnection dial gather).1) := by
  refine ⟨?_, ?_, ?_, ?_⟩
  · cases dial with
    | error e => cases e <;> rfl
    | ok u =>
        cases gather with
        | error e => cases e <;> rfl
        | ok v => rfl
  · intro e he
    subst he
    cases e <;> simp [handleWsConnection, handleBody]
  · intro m hm
    subst hm
    simp [handleWsConnection, handleBody]
  · intro m u hd hm
    subst hd
    subst hm
    simp [handleWsConnection, handleBody]

/-- Witness for C9: a failed dial (connection refused) is contained, starts
no forwarder and is logged. -/
theorem session_error_containment_witness :
    (handleWsConnection (Except.error (SessionErr.exception "refused"))
        (Except.ok ())).2 = none ∧
    HandleEv.startTcpToWs ∉
      (handleWsConnection (Except.error (SessionErr.exception "refused"))
        (Except.ok ())).1 ∧
    HandleEv.logError ∈
      (handleWsConnection (Except.error (SessionErr.exception "refused"))
        (Except.ok ())).1 := by
  have h := session_error_containment
    (Except.error (SessionErr.exception "refused")) (Except.ok ())
  exact ⟨h.1, (h.2.1 (SessionErr.exception "refused") rfl).1,
    h.2.2.1 "refused" rfl⟩
